import Mathlib

/-!
Shallow embedding of the rooster-simulator audio core
(`src/audio_system.py`, `src/rooster.py`).

Numeric values (Python floats) are modelled as exact rationals `ℚ` for the
mixing / gain arithmetic and as reals `ℝ` for the trigonometric position
code.  Fallible operations are modelled with `Option` / explicit outcome
flags; the file-system and device environment is passed in as explicit
oracle data.
-/

namespace RoosterSim

/-! ## Channel gain mapper (`src/rooster.py`)

`Rooster.get_volume_for_distance` reads four config values
`audio.volume.{min_distance, max_distance, min_volume, max_volume}`. -/

structure VolumeConfig where
  min_distance : ℚ
  max_distance : ℚ
  min_volume : ℚ
  max_volume : ℚ

/-- `Rooster.get_volume_for_distance` (rooster.py lines 217-232):
linear interpolation of volume between the two distance bounds. -/
def get_volume_for_distance (cfg : VolumeConfig) (distance : ℚ) : ℚ :=
  if distance ≤ cfg.min_distance then
    cfg.max_volume
  else if distance ≥ cfg.max_distance then
    cfg.min_volume
  else
    cfg.max_volume -
      ((distance - cfg.min_distance) / (cfg.max_distance - cfg.min_distance)) *
        (cfg.max_volume - cfg.min_volume)

/-- The 6-element speaker gain vector, in the fixed channel order
(FL, FR, C, LFE, RL, RR) used throughout `audio_system.py`. -/
structure Gains where
  fl : ℚ
  fr : ℚ
  c : ℚ
  lfe : ℚ
  rl : ℚ
  rr : ℚ
deriving DecidableEq

/-- The quadrant → speaker assignment of `Rooster.get_speaker_volumes`
(rooster.py lines 244-264): all channels start at 0, the quadrant's primary
speaker gets `0.8 * base_volume`, its bleed speaker `0.2 * base_volume`,
and after the if/elif chain the LFE is set to `0.15 * base_volume`. -/
def speaker_volumes_for (quadrant : ℤ) (base_volume : ℚ) : Gains :=
  let g : Gains := ⟨0, 0, 0, 0, 0, 0⟩
  let g :=
    if quadrant = 0 then
      { g with fr := base_volume * (8/10), c := base_volume * (2/10) }
    else if quadrant = 1 then
      { g with rr := base_volume * (8/10), fr := base_volume * (2/10) }
    else if quadrant = 2 then
      { g with rl := base_volume * (8/10), fl := base_volume * (2/10) }
    else if quadrant = 3 then
      { g with fl := base_volume * (8/10), c := base_volume * (2/10) }
    else g
  { g with lfe := base_volume * (15/100) }

/-- `Rooster.get_speaker_volumes` (rooster.py lines 234-264), with the
quadrant (computed from the position by `Position.get_quadrant`) passed in. -/
def get_speaker_volumes (cfg : VolumeConfig) (distance : ℚ) (quadrant : ℤ) : Gains :=
  speaker_volumes_for quadrant (get_volume_for_distance cfg distance)

/-- The spec's reference definition of the base volume, written from the
spec's words: `maxVolume` when `distance ≤ minDistance`; `minVolume` when
`distance ≥ maxDistance`; otherwise
`maxVolume - ((distance-minDistance)/(maxDistance-minDistance)) * (maxVolume-minVolume)`. -/
def spec_base_volume (cfg : VolumeConfig) (distance : ℚ) : ℚ :=
  if distance ≤ cfg.min_distance then cfg.max_volume
  else if distance ≥ cfg.max_distance then cfg.min_volume
  else
    cfg.max_volume -
      ((distance - cfg.min_distance) / (cfg.max_distance - cfg.min_distance)) *
        (cfg.max_volume - cfg.min_volume)

/-- **C5.** The speaker gain vector equals the reference definition:
`get_volume_for_distance` agrees with the spec's three-case base-volume
formula, and the quadrant assignment gives the primary channel
`0.8 * baseVolume`, the bleed channel `0.2 * baseVolume`
(quadrant 0: FR primary / C bleed; 1: RR primary / FR bleed;
2: RL primary / FL bleed; 3: FL primary / C bleed), LFE always
`0.15 * baseVolume`, and every other channel 0. -/
theorem C5_speaker_gains (cfg : VolumeConfig) (d : ℚ) :
    get_volume_for_distance cfg d = spec_base_volume cfg d ∧
    (get_speaker_volumes cfg d 0 =
      ⟨0, get_volume_for_distance cfg d * (8/10), get_volume_for_distance cfg d * (2/10),
        get_volume_for_distance cfg d * (15/100), 0, 0⟩) ∧
    (get_speaker_volumes cfg d 1 =
      ⟨0, get_volume_for_distance cfg d * (2/10), 0,
        get_volume_for_distance cfg d * (15/100), 0, get_volume_for_distance cfg d * (8/10)⟩) ∧
    (get_speaker_volumes cfg d 2 =
      ⟨get_volume_for_distance cfg d * (2/10), 0, 0,
        get_volume_for_distance cfg d * (15/100), get_volume_for_distance cfg d * (8/10), 0⟩) ∧
    (get_speaker_volumes cfg d 3 =
      ⟨get_volume_for_distance cfg d * (8/10), 0, get_volume_for_distance cfg d * (2/10),
        get_volume_for_distance cfg d * (15/100), 0, 0⟩) := by
  refine ⟨rfl, ?_, ?_, ?_, ?_⟩ <;>
    simp [get_speaker_volumes, speaker_volumes_for]

/-- **C9.** `get_volume_for_distance` is total and its interpolation branch
is only reached when `min_distance < distance < max_distance`, which forces
the divisor `max_distance - min_distance` to be strictly positive; in the
degenerate configurations `min_distance ≥ max_distance` one of the two
guard branches always applies. -/
theorem C9_no_division_by_zero (cfg : VolumeConfig) (d : ℚ) :
    ((d ≤ cfg.min_distance ∧ get_volume_for_distance cfg d = cfg.max_volume) ∨
     (¬ d ≤ cfg.min_distance ∧ d ≥ cfg.max_distance ∧
        get_volume_for_distance cfg d = cfg.min_volume) ∨
     (cfg.min_distance < d ∧ d < cfg.max_distance ∧
        0 < cfg.max_distance - cfg.min_distance ∧
        get_volume_for_distance cfg d =
          cfg.max_volume -
            ((d - cfg.min_distance) / (cfg.max_distance - cfg.min_distance)) *
              (cfg.max_volume - cfg.min_volume))) ∧
    (cfg.min_distance ≥ cfg.max_distance → d ≤ cfg.min_distance ∨ d ≥ cfg.max_distance) := by
  constructor
  · by_cases h1 : d ≤ cfg.min_distance
    · exact Or.inl ⟨h1, by simp [get_volume_for_distance, h1]⟩
    · by_cases h2 : d ≥ cfg.max_distance
      · exact Or.inr (Or.inl ⟨h1, h2, by simp [get_volume_for_distance, h1, h2]⟩)
      · refine Or.inr (Or.inr ⟨lt_of_not_le h1, lt_of_not_le h2, by linarith [lt_of_not_le h1, lt_of_not_le h2], ?_⟩)
        simp [get_volume_for_distance, h1, h2]
  · intro hdeg
    by_cases h1 : d ≤ cfg.min_distance
    · exact Or.inl h1
    · exact Or.inr (le_trans hdeg (le_of_not_le h1))

/-- Witness for C9 at a degenerate configuration: `min_distance = max_distance = 1`. -/
theorem C9_no_division_by_zero_witness :
    let cfg : VolumeConfig := ⟨1, 1, 0, 1⟩
    ((2 : ℚ) ≤ cfg.min_distance ∧ get_volume_for_distance cfg 2 = cfg.max_volume) ∨
     (¬ (2 : ℚ) ≤ cfg.min_distance ∧ (2 : ℚ) ≥ cfg.max_distance ∧
        get_volume_for_distance cfg 2 = cfg.min_volume) ∨
     (cfg.min_distance < 2 ∧ (2 : ℚ) < cfg.max_distance ∧
        0 < cfg.max_distance - cfg.min_distance ∧
        get_volume_for_distance cfg 2 =
          cfg.max_volume -
            (((2 : ℚ) - cfg.min_distance) / (cfg.max_distance - cfg.min_distance)) *
              (cfg.max_volume - cfg.min_volume)) :=
  (C9_no_division_by_zero ⟨1, 1, 0, 1⟩ 2).1

/-! ## Voice registry and mixing callback (`src/audio_system.py`)

A voice is one entry of `AudioSystem.active_sounds`:
`{'data': array, 'position': int, 'volumes': tuple}`.  Samples are mono
float32, modelled as a list of rationals. -/

structure Voice where
  data : List ℚ
  position : Nat
  volumes : Gains
deriving DecidableEq

/-- `remaining_frames = len(audio_data) - position;
frames_to_read = min(frames, remaining_frames)` (audio_system.py 210-211).
With `Nat` subtraction a position past the end yields 0, matching the
Python guard `if frames_to_read > 0` that skips a negative count. -/
def framesToRead (frames : Nat) (v : Voice) : Nat :=
  min frames (v.data.length - v.position)

/-- The sample `audio_data[position + f]` of the segment
`audio_data[position : position + frames_to_read]` (out of range reads 0;
the callback only uses `f < framesToRead`, which is always in range). -/
def sampleAt (v : Voice) (f : Nat) : ℚ :=
  v.data.getD (v.position + f) 0

/-- Gain of channel `ch` in the fixed order FL, FR, C, LFE, RL, RR
(`for i, volume in enumerate(volumes)`). -/
def gainAt (g : Gains) (ch : Nat) : ℚ :=
  match ch with
  | 0 => g.fl
  | 1 => g.fr
  | 2 => g.c
  | 3 => g.lfe
  | 4 => g.rl
  | 5 => g.rr
  | _ => 0

/-- What one voice adds to output cell `(f, ch)` in one callback invocation
(audio_system.py 213-231).  In stereo mode channel 0 receives
`segment * (fl + 0.7*c + 0.7*rl)` and channel 1
`segment * (fr + 0.7*c + 0.7*rr)`; otherwise channel `i < min(6, channels)`
receives `segment * volumes[i]`. -/
def contrib (stereo : Bool) (channels frames : Nat) (v : Voice) (f ch : Nat) : ℚ :=
  if f < framesToRead frames v then
    if stereo then
      if ch = 0 then
        sampleAt v f * (v.volumes.fl + 7/10 * v.volumes.c + 7/10 * v.volumes.rl)
      else if ch = 1 then
        sampleAt v f * (v.volumes.fr + 7/10 * v.volumes.c + 7/10 * v.volumes.rr)
      else 0
    else
      if ch < 6 ∧ ch < channels then sampleAt v f * gainAt v.volumes ch else 0
  else 0

/-- `outdata[...] += ...`: accumulate one voice into the output buffer. -/
def mixVoiceInto (stereo : Bool) (channels frames : Nat) (v : Voice)
    (buf : Nat → Nat → ℚ) : Nat → Nat → ℚ :=
  fun f ch => buf f ch + contrib stereo channels frames v f ch

/-- `sound_info['position'] += frames_to_read` (audio_system.py 234). -/
def advVoice (frames : Nat) (v : Voice) : Voice :=
  { v with position := v.position + framesToRead frames v }

/-- One invocation of `AudioSystem._audio_callback` (audio_system.py
190-242) on a registry of `(sound_id, voice)` pairs: the output buffer
starts zeroed (`outdata.fill(0)`), every voice is accumulated and its
cursor advanced, and every voice whose updated position reaches
`len(audio_data)` is removed. -/
def audio_callback (stereo : Bool) (channels frames : Nat)
    (reg : List (Nat × Voice)) : (Nat → Nat → ℚ) × List (Nat × Voice) :=
  (reg.foldl (fun b iv => mixVoiceInto stereo channels frames iv.2 b) (fun _ _ => 0),
   reg.filterMap (fun iv =>
     let v := advVoice frames iv.2
     if v.position < v.data.length then some (iv.1, v) else none))

/-- Accumulating a registry into a buffer adds, cell by cell, the sum of
the per-voice contributions. -/
lemma mix_foldl_sum (stereo : Bool) (channels frames : Nat) :
    ∀ (reg : List (Nat × Voice)) (b : Nat → Nat → ℚ) (f ch : Nat),
      (reg.foldl (fun b iv => mixVoiceInto stereo channels frames iv.2 b) b) f ch
        = b f ch + (reg.map (fun iv => contrib stereo channels frames iv.2 f ch)).sum := by
  intro reg
  induction reg with
  | nil => intro b f ch; simp
  | cons x xs ih =>
      intro b f ch
      simp only [List.foldl_cons, List.map_cons, List.sum_cons, ih, mixVoiceInto]
      ring

/-- **C3.** Stereo downmix law of the mixing callback: channel 0 receives
`segment * (FL + 0.7*C + 0.7*RL)` and channel 1
`segment * (FR + 0.7*C + 0.7*RR)`; gains `(1,0,0,0,0,0)` yield exactly
`(1, 0) * sample`, gains `(0,0,1,0,0,0)` yield `(0.7, 0.7) * sample`, and
the LFE gain (both channels), the RL gain (right channel) and the RR gain
(left channel) contribute nothing. -/
theorem C3_stereo_downmix (channels frames i f : Nat) (samples : List ℚ)
    (pos : Nat) (g : Gains)
    (hf : f < framesToRead frames ⟨samples, pos, g⟩) :
    ((audio_callback true channels frames [(i, ⟨samples, pos, g⟩)]).1 f 0
        = sampleAt ⟨samples, pos, g⟩ f * (g.fl + 7/10 * g.c + 7/10 * g.rl)) ∧
    ((audio_callback true channels frames [(i, ⟨samples, pos, g⟩)]).1 f 1
        = sampleAt ⟨samples, pos, g⟩ f * (g.fr + 7/10 * g.c + 7/10 * g.rr)) ∧
    (g = ⟨1, 0, 0, 0, 0, 0⟩ →
      (audio_callback true channels frames [(i, ⟨samples, pos, g⟩)]).1 f 0
          = sampleAt ⟨samples, pos, g⟩ f ∧
      (audio_callback true channels frames [(i, ⟨samples, pos, g⟩)]).1 f 1 = 0) ∧
    (g = ⟨0, 0, 1, 0, 0, 0⟩ →
      (audio_callback true channels frames [(i, ⟨samples, pos, g⟩)]).1 f 0
          = 7/10 * sampleAt ⟨samples, pos, g⟩ f ∧
      (audio_callback true channels frames [(i, ⟨samples, pos, g⟩)]).1 f 1
          = 7/10 * sampleAt ⟨samples, pos, g⟩ f) ∧
    (∀ l' : ℚ,
      ((audio_callback true channels frames [(i, ⟨samples, pos, { g with lfe := l' }⟩)]).1 f 0
          = (audio_callback true channels frames [(i, ⟨samples, pos, g⟩)]).1 f 0) ∧
      ((audio_callback true channels frames [(i, ⟨samples, pos, { g with lfe := l' }⟩)]).1 f 1
          = (audio_callback true channels frames [(i, ⟨samples, pos, g⟩)]).1 f 1)) ∧
    (∀ r' : ℚ,
      (audio_callback true channels frames [(i, ⟨samples, pos, { g with rl := r' }⟩)]).1 f 1
          = (audio_callback true channels frames [(i, ⟨samples, pos, g⟩)]).1 f 1) ∧
    (∀ r' : ℚ,
      (audio_callback true channels frames [(i, ⟨samples, pos, { g with rr := r' }⟩)]).1 f 0
          = (audio_callback true channels frames [(i, ⟨samples, pos, g⟩)]).1 f 0) := by
  have base : ∀ g' : Gains,
      ((audio_callback true channels frames [(i, ⟨samples, pos, g'⟩)]).1 f 0
        = sampleAt ⟨samples, pos, g⟩ f * (g'.fl + 7/10 * g'.c + 7/10 * g'.rl)) ∧
      ((audio_callback true channels frames [(i, ⟨samples, pos, g'⟩)]).1 f 1
        = sampleAt ⟨samples, pos, g⟩ f * (g'.fr + 7/10 * g'.c + 7/10 * g'.rr)) := by
    intro g'
    have hf' : f < framesToRead frames ⟨samples, pos, g'⟩ := hf
    constructor <;> simp [audio_callback, mixVoiceInto, contrib, sampleAt, hf']
  refine ⟨(base g).1, (base g).2, ?_, ?_, ?_, ?_, ?_⟩
  · intro hg; subst hg
    constructor
    · rw [(base _).1]; ring
    · rw [(base _).2]; ring
  · intro hg; subst hg
    constructor
    · rw [(base _).1]; ring
    · rw [(base _).2]; ring
  · intro l'
    refine ⟨?_, ?_⟩
    · rw [(base _).1, (base _).1]
    · rw [(base _).2, (base _).2]
  · intro r'
    rw [(base _).2, (base _).2]
  · intro r'
    rw [(base _).1, (base _).1]

/-- Witness for C3: one voice with a single sample, block of one frame. -/
theorem C3_stereo_downmix_witness :
    (0 < framesToRead 1 ⟨[1], 0, ⟨1, 0, 0, 0, 0, 0⟩⟩) ∧
    ((audio_callback true 2 1 [(0, ⟨[1], 0, ⟨1, 0, 0, 0, 0, 0⟩⟩)]).1 0 0
        = sampleAt ⟨[1], 0, ⟨1, 0, 0, 0, 0, 0⟩⟩ 0 *
            ((1 : ℚ) + 7/10 * 0 + 7/10 * 0)) :=
  ⟨by decide, (C3_stereo_downmix 2 1 0 0 [1] 0 ⟨1, 0, 0, 0, 0, 0⟩ (by decide)).1⟩

/-- **C8.** Mixing is additive: the callback's output buffer is, cell by
cell, the sum of the individual voice contributions; in particular for two
voices over the same asset with equal cursors the output equals the
element-wise sum of the buffers obtained by mixing each voice alone. -/
theorem C8_mixing_additive :
    (∀ (stereo : Bool) (channels frames : Nat) (reg : List (Nat × Voice)) (f ch : Nat),
      (audio_callback stereo channels frames reg).1 f ch
        = (reg.map (fun iv => contrib stereo channels frames iv.2 f ch)).sum) ∧
    (∀ (stereo : Bool) (channels frames i1 i2 : Nat) (v1 v2 : Voice) (f ch : Nat),
      v1.data = v2.data → v1.position = v2.position →
      (audio_callback stereo channels frames [(i1, v1), (i2, v2)]).1 f ch
        = (audio_callback stereo channels frames [(i1, v1)]).1 f ch
          + (audio_callback stereo channels frames [(i2, v2)]).1 f ch) := by
  have hsum : ∀ (stereo : Bool) (channels frames : Nat) (reg : List (Nat × Voice)) (f ch : Nat),
      (audio_callback stereo channels frames reg).1 f ch
        = (reg.map (fun iv => contrib stereo channels frames iv.2 f ch)).sum := by
    intro stereo channels frames reg f ch
    simpa using mix_foldl_sum stereo channels frames reg (fun _ _ => 0) f ch
  refine ⟨hsum, ?_⟩
  intro stereo channels frames i1 i2 v1 v2 f ch _ _
  simp [hsum]

/-- Witness for C8: two one-sample voices over the same asset, cursor 0. -/
theorem C8_mixing_additive_witness :
    (Voice.data ⟨[1], 0, ⟨1, 0, 0, 0, 0, 0⟩⟩ = Voice.data ⟨[1], 0, ⟨0, 1, 0, 0, 0, 0⟩⟩) ∧
    (Voice.position ⟨[1], 0, ⟨1, 0, 0, 0, 0, 0⟩⟩ = Voice.position ⟨[1], 0, ⟨0, 1, 0, 0, 0, 0⟩⟩) ∧
    ((audio_callback false 6 1 [(0, ⟨[1], 0, ⟨1, 0, 0, 0, 0, 0⟩⟩),
                                (1, ⟨[1], 0, ⟨0, 1, 0, 0, 0, 0⟩⟩)]).1 0 0
      = (audio_callback false 6 1 [(0, ⟨[1], 0, ⟨1, 0, 0, 0, 0, 0⟩⟩)]).1 0 0
        + (audio_callback false 6 1 [(1, ⟨[1], 0, ⟨0, 1, 0, 0, 0, 0⟩⟩)]).1 0 0) :=
  ⟨rfl, rfl,
    C8_mixing_additive.2 false 6 1 0 1 ⟨[1], 0, ⟨1, 0, 0, 0, 0, 0⟩⟩
      ⟨[1], 0, ⟨0, 1, 0, 0, 0, 0⟩⟩ 0 0 rfl rfl⟩

/-! ## Voice lifecycle across successive callback invocations

`advance`, `cursorFrom` and `survivesFrom` are the per-voice content of the
callback: cursor update `position += min(frames, len - position)` and
removal once `position >= len(audio_data)`. -/

/-- One tick's cursor update for a voice over an asset of length `len`. -/
def advance (frames len pos : Nat) : Nat :=
  pos + min frames (len - pos)

/-- Cursor after a sequence of callback invocations with the given block
sizes, starting from cursor `pos`. -/
def cursorFrom (len pos : Nat) (fs : List Nat) : Nat :=
  fs.foldl (fun p f => advance f len p) pos

/-- Cursor after a run starting from cursor 0 (a fresh voice). -/
def cursorAfter (len : Nat) (fs : List Nat) : Nat :=
  cursorFrom len 0 fs

/-- Whether a voice starting at cursor `pos` is still in the registry after
the given callback invocations: each tick advances the cursor and removes
the voice once the updated cursor reaches `len`. -/
def survivesFrom (len pos : Nat) : List Nat → Bool
  | [] => true
  | f :: fs =>
      let p := advance f len pos
      if len ≤ p then false else survivesFrom len p fs

/-- Whether a fresh voice is still in the registry after the run. -/
def survives (len : Nat) (fs : List Nat) : Bool :=
  survivesFrom len 0 fs

/-- The registry after a sequence of callback invocations. -/
def run_registry (stereo : Bool) (channels : Nat) (reg : List (Nat × Voice))
    (fs : List Nat) : List (Nat × Voice) :=
  fs.foldl (fun r f => (audio_callback stereo channels f r).2) reg

lemma le_advance (f len pos : Nat) : pos ≤ advance f len pos :=
  Nat.le_add_right _ _

lemma advance_le {len pos : Nat} (f : Nat) (h : pos ≤ len) : advance f len pos ≤ len := by
  have := Nat.min_le_right f (len - pos)
  unfold advance
  omega

lemma cursorFrom_cons (len pos f : Nat) (fs : List Nat) :
    cursorFrom len pos (f :: fs) = cursorFrom len (advance f len pos) fs := rfl

lemma le_cursorFrom (len : Nat) : ∀ (fs : List Nat) (pos : Nat), pos ≤ cursorFrom len pos fs := by
  intro fs
  induction fs with
  | nil => intro pos; simp [cursorFrom]
  | cons f fs ih =>
      intro pos
      calc pos ≤ advance f len pos := le_advance f len pos
        _ ≤ cursorFrom len (advance f len pos) fs := ih _
        _ = cursorFrom len pos (f :: fs) := (cursorFrom_cons len pos f fs).symm

lemma cursorFrom_le (len : Nat) : ∀ (fs : List Nat) (pos : Nat), pos ≤ len →
    cursorFrom len pos fs ≤ len := by
  intro fs
  induction fs with
  | nil => intro pos h; simpa [cursorFrom] using h
  | cons f fs ih =>
      intro pos h
      rw [cursorFrom_cons]
      exact ih _ (advance_le f h)

lemma cursorFrom_append (len pos : Nat) (l1 l2 : List Nat) :
    cursorFrom len pos (l1 ++ l2) = cursorFrom len (cursorFrom len pos l1) l2 := by
  simp [cursorFrom, List.foldl_append]

lemma survivesFrom_append (len : Nat) : ∀ (l1 l2 : List Nat) (pos : Nat),
    survivesFrom len pos (l1 ++ l2)
      = (survivesFrom len pos l1 && survivesFrom len (cursorFrom len pos l1) l2) := by
  intro l1
  induction l1 with
  | nil => intro l2 pos; simp [survivesFrom, cursorFrom]
  | cons f l1 ih =>
      intro l2 pos
      by_cases h : len ≤ advance f len pos
      · simp [survivesFrom, h]
      · simp only [List.cons_append, survivesFrom, h, if_neg, cursorFrom_cons]
        exact ih l2 _

lemma survivesFrom_iff (len : Nat) : ∀ (fs : List Nat) (pos : Nat), pos ≤ len →
    (survivesFrom len pos fs = true ↔
      ∀ k, 0 < k → k ≤ fs.length → cursorFrom len pos (fs.take k) < len) := by
  intro fs
  induction fs with
  | nil =>
      intro pos _
      simp only [survivesFrom, List.length_nil]
      constructor
      · intro _ k hk hk'; omega
      · intro _; trivial
  | cons f fs ih =>
      intro pos hpos
      by_cases h : len ≤ advance f len pos
      · simp only [survivesFrom, h, if_pos]
        constructor
        · intro hfalse; exact absurd hfalse (by simp)
        · intro hall
          have h1 := hall 1 (by omega) (by simp)
          rw [List.take_succ_cons, List.take_zero, cursorFrom_cons] at h1
          simp [cursorFrom] at h1
          omega
      · have hadv : advance f len pos ≤ len := le_of_not_le h |>.trans (le_refl len) |>.trans (le_refl len)
        simp only [survivesFrom, h, if_neg, not_false_eq_true]
        rw [ih (advance f len pos) (le_of_not_le h |>.trans (le_refl len))]
        constructor
        · intro hall k hk hk'
          match k, hk with
          | Nat.succ j, _ =>
              rw [List.take_succ_cons, cursorFrom_cons]
              rcases Nat.eq_zero_or_pos j with hj | hj
              · subst hj
                simpa [cursorFrom] using lt_of_not_le h
              · exact hall j hj (by simpa using hk')
        · intro hall j hj hj'
          have := hall (j + 1) (by omega) (by simpa using Nat.succ_le_succ hj')
          rwa [List.take_succ_cons, cursorFrom_cons] at this

lemma audio_callback_reg_nil (stereo : Bool) (channels f : Nat) :
    (audio_callback stereo channels f []).2 = [] := rfl

lemma run_registry_nil (stereo : Bool) (channels : Nat) : ∀ fs : List Nat,
    run_registry stereo channels [] fs = [] := by
  intro fs
  induction fs with
  | nil => rfl
  | cons f fs ih =>
      show run_registry stereo channels (audio_callback stereo channels f []).2 fs = []
      rw [audio_callback_reg_nil]
      exact ih

lemma audio_callback_single (stereo : Bool) (channels f i : Nat) (samples : List ℚ)
    (pos : Nat) (vols : Gains) :
    (audio_callback stereo channels f [(i, ⟨samples, pos, vols⟩)]).2
      = if advance f samples.length pos < samples.length
        then [(i, ⟨samples, advance f samples.length pos, vols⟩)] else [] := by
  by_cases h : advance f samples.length pos < samples.length <;>
    simp only [audio_callback, List.filterMap_cons, List.filterMap_nil, advVoice,
      framesToRead, advance] at h ⊢ <;>
    simp [h]

lemma run_registry_single (stereo : Bool) (channels i : Nat) (samples : List ℚ)
    (vols : Gains) : ∀ (fs : List Nat) (pos : Nat),
    run_registry stereo channels [(i, ⟨samples, pos, vols⟩)] fs
      = if survivesFrom samples.length pos fs
        then [(i, ⟨samples, cursorFrom samples.length pos fs, vols⟩)] else [] := by
  intro fs
  induction fs with
  | nil => intro pos; simp [run_registry, survivesFrom, cursorFrom]
  | cons f fs ih =>
      intro pos
      have hstep : run_registry stereo channels [(i, ⟨samples, pos, vols⟩)] (f :: fs)
          = run_registry stereo channels
              (audio_callback stereo channels f [(i, ⟨samples, pos, vols⟩)]).2 fs := rfl
      rw [hstep, audio_callback_single]
      by_cases h : advance f samples.length pos < samples.length
      · rw [if_pos h, ih]
        have hs : survivesFrom samples.length pos (f :: fs)
            = survivesFrom samples.length (advance f samples.length pos) fs := by
          simp [survivesFrom, Nat.not_le_of_lt h]
        rw [hs, cursorFrom_cons]
      · rw [if_neg h, run_registry_nil]
        have hs : survivesFrom samples.length pos (f :: fs) = false := by
          simp [survivesFrom]
          omega
        rw [hs]
        simp

lemma survives_take_antitone (len : Nat) (fs : List Nat) {k m : Nat} (hkm : k ≤ m)
    (h : survives len (fs.take k) = false) : survives len (fs.take m) = false := by
  have hsplit : fs.take m = fs.take k ++ (fs.drop k).take (m - k) := by
    rw [← List.take_add]
    congr 1
    omega
  unfold survives at h ⊢
  rw [hsplit, survivesFrom_append, h]
  rfl

/-- **C1.** Voice lifecycle across mixing callback invocations: a fresh
voice's registry entry is exactly described by `survives`/`cursorAfter`;
the cursor is monotonically non-decreasing across ticks, never exceeds the
asset length, the voice stays in the registry exactly as long as its
cursor has never reached the asset length, and the tick that removes it is
unique and is the first one at which the cursor equals the asset length. -/
theorem C1_voice_lifecycle :
    (∀ (stereo : Bool) (channels i : Nat) (samples : List ℚ) (vols : Gains)
       (fs : List Nat),
      run_registry stereo channels [(i, ⟨samples, 0, vols⟩)] fs
        = if survives samples.length fs
          then [(i, ⟨samples, cursorAfter samples.length fs, vols⟩)] else []) ∧
    (∀ (len : Nat) (fs : List Nat) (j k : Nat), j ≤ k →
      cursorAfter len (fs.take j) ≤ cursorAfter len (fs.take k)) ∧
    (∀ (len : Nat) (fs : List Nat), cursorAfter len fs ≤ len) ∧
    (∀ (len : Nat) (fs : List Nat),
      survives len fs = true ↔
        ∀ k, 0 < k → k ≤ fs.length → cursorAfter len (fs.take k) < len) ∧
    (∀ (len : Nat) (fs : List Nat) (k : Nat), 0 < k → k ≤ fs.length →
      survives len (fs.take (k - 1)) = true → survives len (fs.take k) = false →
      cursorAfter len (fs.take k) = len ∧
        ∀ j, 0 < j → j < k → cursorAfter len (fs.take j) < len) ∧
    (∀ (len : Nat) (fs : List Nat) (k1 k2 : Nat),
      0 < k1 → k1 ≤ fs.length →
      survives len (fs.take (k1 - 1)) = true → survives len (fs.take k1) = false →
      0 < k2 → k2 ≤ fs.length →
      survives len (fs.take (k2 - 1)) = true → survives len (fs.take k2) = false →
      k1 = k2) := by
  have mono : ∀ (len : Nat) (fs : List Nat) (j k : Nat), j ≤ k →
      cursorAfter len (fs.take j) ≤ cursorAfter len (fs.take k) := by
    intro len fs j k hjk
    have hsplit : fs.take k = fs.take j ++ (fs.drop j).take (k - j) := by
      rw [← List.take_add]
      congr 1
      omega
    unfold cursorAfter
    rw [hsplit, cursorFrom_append]
    exact le_cursorFrom len _ _
  have bounded : ∀ (len : Nat) (fs : List Nat), cursorAfter len fs ≤ len :=
    fun len fs => cursorFrom_le len fs 0 (Nat.zero_le len)
  have aliveIff : ∀ (len : Nat) (fs : List Nat),
      survives len fs = true ↔
        ∀ k, 0 < k → k ≤ fs.length → cursorAfter len (fs.take k) < len := by
    intro len fs
    exact survivesFrom_iff len fs 0 (Nat.zero_le len)
  have firstTick : ∀ (len : Nat) (fs : List Nat) (k : Nat), 0 < k → k ≤ fs.length →
      survives len (fs.take (k - 1)) = true → survives len (fs.take k) = false →
      cursorAfter len (fs.take k) = len ∧
        ∀ j, 0 < j → j < k → cursorAfter len (fs.take j) < len := by
    intro len fs k hk hklen halive hdead
    constructor
    · have hnot : ¬ ∀ j, 0 < j → j ≤ (fs.take k).length →
          cursorAfter len ((fs.take k).take j) < len := by
        intro hall
        rw [(aliveIff len (fs.take k)).mpr hall] at hdead
        exact Bool.noConfusion hdead
      push_neg at hnot
      obtain ⟨j, hj, hjlen, hge⟩ := hnot
      have hjk : j ≤ k := by
        have := hjlen.trans (List.length_take_le k fs)
        exact this
      rw [List.take_take, min_eq_left hjk] at hge
      have h1 : len ≤ cursorAfter len (fs.take j) := hge
      have h2 : cursorAfter len (fs.take j) ≤ cursorAfter len (fs.take k) := mono len fs j k hjk
      have h3 : cursorAfter len (fs.take k) ≤ len := by
        have := bounded len (fs.take k)
        exact this
      omega
    · intro j hj hjk
      have hall := (aliveIff len (fs.take (k - 1))).mp halive
      have hjlen : j ≤ (fs.take (k - 1)).length := by
        rw [List.length_take]
        omega
      have := hall j hj hjlen
      rwa [List.take_take, min_eq_left (by omega : j ≤ k - 1)] at this
  refine ⟨?_, mono, bounded, aliveIff, firstTick, ?_⟩
  · intro stereo channels i samples vols fs
    exact run_registry_single stereo channels i samples vols fs 0
  · intro len fs k1 k2 hk1 hk1len halive1 hdead1 hk2 hk2len halive2 hdead2
    by_contra hne
    rcases Nat.lt_or_ge k1 k2 with hlt | hge
    · have : survives len (fs.take (k2 - 1)) = false :=
        survives_take_antitone len fs (by omega) hdead1
      rw [halive2] at this
      exact Bool.noConfusion this
    · have hlt : k2 < k1 := by omega
      have : survives len (fs.take (k1 - 1)) = false :=
        survives_take_antitone len fs (by omega) hdead2
      rw [halive1] at this
      exact Bool.noConfusion this

/-- Witness for C1: an asset of two samples mixed in blocks of one frame is
removed at the second tick, the first at which its cursor equals 2. -/
theorem C1_voice_lifecycle_witness :
    (0 < 2 ∧ 2 ≤ ([1, 1] : List Nat).length ∧
      survives 2 (([1, 1] : List Nat).take 1) = true ∧
      survives 2 (([1, 1] : List Nat).take 2) = false) ∧
    (cursorAfter 2 (([1, 1] : List Nat).take 2) = 2 ∧
      ∀ j, 0 < j → j < 2 → cursorAfter 2 (([1, 1] : List Nat).take j) < 2) :=
  ⟨⟨by decide, by decide, by decide, by decide⟩,
    C1_voice_lifecycle.2.2.2.2.1 2 [1, 1] 2 (by decide) (by decide) (by decide) (by decide)⟩

/-! ## Asset cache and stream controller (`src/audio_system.py`)

The file system, decoder library and audio device are external effects;
they enter the model as explicit oracle data.  For one fixed filename the
relevant environment is: whether the file exists, what `sf.read` yields on
it (`none` = the decoder raised; a result is the already-mono data, since
the loader averages multi-channel input), whether the name ends in
`.mp3`, whether the external `ffmpeg` process exits with status zero, and
what `sf.read` yields on the transcoded temporary WAV. -/

structure LoadEnv where
  file_exists : Bool
  sf_read : Option (List ℚ × Nat)
  is_mp3 : Bool
  ffmpeg_ok : Bool
  tmp_read : Option (List ℚ × Nat)

inductive Mp3Error where
  | ffmpegFailed
  | decodeFailed
deriving DecidableEq

/-- `AudioSystem._load_mp3_with_ffmpeg` (audio_system.py 98-137).  The
temporary WAV is created (`NamedTemporaryFile(..., delete=False)`), ffmpeg
is run with `check=True`, the temp file is decoded, and on success it is
unlinked.  A nonzero ffmpeg exit raises `subprocess.CalledProcessError`,
whose handler re-raises *without* unlinking; any other exception is caught
by the generic handler, which unlinks before re-raising.  The returned
`Bool` records whether the temporary WAV still exists afterwards. -/
def load_mp3_with_ffmpeg (env : LoadEnv) : Except Mp3Error (List ℚ × Nat) × Bool :=
  if env.ffmpeg_ok = false then
    (Except.error Mp3Error.ffmpegFailed, true)
  else
    match env.tmp_read with
    | none => (Except.error Mp3Error.decodeFailed, false)
    | some a => (Except.ok a, false)

/-- `AudioSystem.load_audio` (audio_system.py 57-96): cache hit, existence
check, generic decode, MP3 transcoding fallback.  Returns the load result
and the updated cache entry; every failure path returns `none` without
raising to the caller. -/
def load_audio (env : LoadEnv) (cache : Option (List ℚ × Nat)) :
    Option (List ℚ × Nat) × Option (List ℚ × Nat) :=
  match cache with
  | some entry => (some entry, cache)
  | none =>
      if env.file_exists = false then (none, cache)
      else
        match env.sf_read with
        | some a => (some a, some a)
        | none =>
            if env.is_mp3 then
              match (load_mp3_with_ffmpeg env).1 with
              | Except.ok a => (some a, some a)
              | Except.error _ => (none, cache)
            else (none, cache)

/-- The `AudioSystem` state: negotiated channel count, downmix flag, the
output stream (tagged with the channel count it was opened with), the
voice registry, the next voice id, and the cache entry for the filename
under consideration. -/
structure AudioState where
  requested_channels : Nat
  channels : Nat
  is_stereo_mode : Bool
  stream : Option Nat
  active_sounds : List (Nat × Voice)
  next_sound_id : Nat
  audio_cache : Option (List ℚ × Nat)

/-- `AudioSystem.start_stream` (audio_system.py 139-181), with device
availability as the oracle `openOk`: return if a stream is already open;
try `self.channels`; on failure, when `self.channels > 2`, set
`channels = 2` and `is_stereo_mode = True` and retry once with 2 channels;
a second failure (or a failure with `channels ≤ 2`) leaves the stream
unopened and returns normally. -/
def start_stream (openOk : Nat → Bool) (st : AudioState) : AudioState :=
  if st.stream.isSome then st
  else if openOk st.channels then { st with stream := some st.channels }
  else if 2 < st.channels then
    let st1 := { st with channels := 2, is_stereo_mode := true }
    if openOk 2 then { st1 with stream := some 2 } else st1
  else st

/-- `AudioSystem.play_sound` (audio_system.py 244-265): load (possibly from
cache), and on success insert a fresh voice with cursor 0 under the next
sound id; on load failure return `None` with the state untouched. -/
def play_sound (env : LoadEnv) (st : AudioState) (speaker_volumes : Gains) :
    Option Nat × AudioState :=
  match (load_audio env st.audio_cache).1 with
  | none => (none, st)
  | some (data, _) =>
      (some st.next_sound_id,
       { st with
         active_sounds :=
           st.active_sounds ++ [(st.next_sound_id, ⟨data, 0, speaker_volumes⟩)],
         next_sound_id := st.next_sound_id + 1,
         audio_cache := (load_audio env st.audio_cache).2 })

/-- **C7.** A failed asset load is local to `play_sound`: it returns no
voice id and leaves the state (in particular the voice registry)
unchanged; the load itself fails when the file is absent or when both the
generic decoder and the MP3 fallback fail, and it never raises. -/
theorem C7_load_failure_is_noop :
    (∀ (env : LoadEnv) (st : AudioState) (g : Gains),
      (load_audio env st.audio_cache).1 = none →
      (play_sound env st g).1 = none ∧ (play_sound env st g).2 = st) ∧
    (∀ env : LoadEnv, env.file_exists = false → (load_audio env none).1 = none) ∧
    (∀ env : LoadEnv, env.sf_read = none → env.is_mp3 = false →
      (load_audio env none).1 = none) ∧
    (∀ env : LoadEnv, env.sf_read = none →
      (env.ffmpeg_ok = false ∨ env.tmp_read = none) →
      (load_audio env none).1 = none) := by
  refine ⟨?_, ?_, ?_, ?_⟩
  · intro env st g h
    constructor <;> simp [play_sound, h]
  · intro env h
    simp [load_audio, h]
  · intro env h1 h2
    cases hfe : env.file_exists <;> simp_all [load_audio]
  · intro env h1 h2
    rcases h2 with h2 | h2 <;>
      cases hfe : env.file_exists <;> cases hmp3 : env.is_mp3 <;>
        cases hok : env.ffmpeg_ok <;>
          simp_all [load_audio, load_mp3_with_ffmpeg]
/-- Witness for C7: the file does not exist, so `play_sound` is a no-op. -/
theorem C7_load_failure_is_noop_witness :
    let env : LoadEnv := ⟨false, none, false, true, none⟩
    let st : AudioState := ⟨6, 6, false, none, [], 0, none⟩
    ((load_audio env st.audio_cache).1 = none) ∧
    (play_sound env st ⟨1, 0, 0, 0, 0, 0⟩).1 = none ∧
    (play_sound env st ⟨1, 0, 0, 0, 0, 0⟩).2 = st :=
  ⟨rfl, C7_load_failure_is_noop.1 ⟨false, none, false, true, none⟩
    ⟨6, 6, false, none, [], 0, none⟩ ⟨1, 0, 0, 0, 0, 0⟩ rfl⟩

/-- **C4.** Stereo fallback of `start_stream`: when no stream is open, the
configured channel count exceeds 2 and the first open fails, the retry
happens with exactly 2 channels, `is_stereo_mode` becomes true and
`channels` becomes 2 (and stays so whether or not the retry succeeds); if
the 2-channel attempt also fails the function still returns (it is total),
the stream remains unopened, and a subsequent `play_sound` whose load
succeeds still creates a voice. -/
theorem C4_stereo_fallback (openOk : Nat → Bool) (st : AudioState)
    (hns : st.stream = none) (hch : 2 < st.channels)
    (hfail : openOk st.channels = false) :
    (start_stream openOk st).channels = 2 ∧
    (start_stream openOk st).is_stereo_mode = true ∧
    (openOk 2 = true → (start_stream openOk st).stream = some 2) ∧
    (openOk 2 = false →
      (start_stream openOk st).stream = none ∧
      ∀ (env : LoadEnv) (g : Gains) (data : List ℚ) (sr : Nat),
        (load_audio env (start_stream openOk st).audio_cache).1 = some (data, sr) →
        (play_sound env (start_stream openOk st) g).1
            = some (start_stream openOk st).next_sound_id ∧
        (play_sound env (start_stream openOk st) g).2.active_sounds
            = (start_stream openOk st).active_sounds ++
                [((start_stream openOk st).next_sound_id, ⟨data, 0, g⟩)]) := by
  have hopen : ¬ st.stream.isSome := by simp [hns]
  have hsteq : start_stream openOk st
      = if openOk 2 then
          { st with channels := 2, is_stereo_mode := true, stream := some 2 }
        else { st with channels := 2, is_stereo_mode := true } := by
    unfold start_stream
    rw [if_neg hopen, if_neg (by simp [hfail]), if_pos hch]
  by_cases h2 : openOk 2
  · rw [hsteq, if_pos h2]
    refine ⟨rfl, rfl, fun _ => rfl, fun hc => ?_⟩
    simp [h2] at hc
  · rw [hsteq, if_neg h2]
    refine ⟨rfl, rfl, fun hc => absurd hc h2, fun _ => ⟨hns, ?_⟩⟩
    intro env g data sr hload
    constructor <;> simp [play_sound, hload]

/-- Witness for C4: a device on which every open attempt fails, starting
from the configured 6-channel request. -/
theorem C4_stereo_fallback_witness :
    let st : AudioState := ⟨6, 6, false, none, [], 0, none⟩
    (st.stream = none ∧ 2 < st.channels ∧ (fun _ : Nat => false) st.channels = false) ∧
    ((start_stream (fun _ => false) st).channels = 2 ∧
      (start_stream (fun _ => false) st).is_stereo_mode = true) :=
  ⟨⟨rfl, by decide, rfl⟩,
    ⟨(C4_stereo_fallback (fun _ => false) ⟨6, 6, false, none, [], 0, none⟩
        rfl (by decide) rfl).1,
     (C4_stereo_fallback (fun _ => false) ⟨6, 6, false, none, [], 0, none⟩
        rfl (by decide) rfl).2.1⟩⟩

/-- **C2** (evaluation of the code's actual behaviour): the temporary WAV
of `_load_mp3_with_ffmpeg` is deleted on the success path and on a decode
failure of the transcoded file, but when the external ffmpeg process exits
with nonzero status the `CalledProcessError` handler re-raises without
deleting it, so the temporary file survives — contradicting the
unconditional-cleanup claim. -/
theorem C2_temp_wav_cleanup :
    (∀ env : LoadEnv, env.ffmpeg_ok = true → (load_mp3_with_ffmpeg env).2 = false) ∧
    (∀ env : LoadEnv, env.ffmpeg_ok = false → (load_mp3_with_ffmpeg env).2 = true) := by
  constructor
  · intro env h
    cases htmp : env.tmp_read <;> simp [load_mp3_with_ffmpeg, h, htmp]
  · intro env h
    simp [load_mp3_with_ffmpeg, h]

/-- Witness for C2: ffmpeg exits with nonzero status; the temp file remains. -/
theorem C2_temp_wav_cleanup_witness :
    (LoadEnv.ffmpeg_ok ⟨true, none, true, false, none⟩ = false) ∧
    (load_mp3_with_ffmpeg ⟨true, none, true, false, none⟩).2 = true :=
  ⟨rfl, C2_temp_wav_cleanup.2 ⟨true, none, true, false, none⟩ rfl⟩

/-! ## Position geometry (`src/rooster.py`)

Angles and distances are real numbers.  Python's float `%` on a positive
modulus returns a value in `[0, modulus)`, which over ℝ is
`a - 2π*floor(a/(2π))`; Python's `int()` truncates toward zero, which on
the non-negative normalized angle coincides with the floor. -/

open Real

noncomputable section

/-- `Position` (rooster.py lines 7-11): polar coordinates. -/
structure Position where
  angle : ℝ
  distance : ℝ

/-- `normalized_angle = self.angle % (2 * math.pi)` (rooster.py line 28). -/
def normalized_angle (a : ℝ) : ℝ :=
  a - 2 * π * ⌊a / (2 * π)⌋

/-- `Position.get_quadrant` (rooster.py lines 19-30):
`int(normalized_angle / (pi/2)) % 4`. -/
def get_quadrant (a : ℝ) : ℤ :=
  ⌊normalized_angle a / (π / 2)⌋ % 4

/-- `math.atan2(y, x)`, with values in `(-π, π]`. -/
def atan2 (y x : ℝ) : ℝ :=
  Complex.arg ⟨x, y⟩

/-- `Rooster.move` (rooster.py lines 134-168): walk `move_distance` in
direction `walk_direction` from the current cartesian position, convert
back to polar, scale back onto the boundary when the new distance exceeds
`max_radius` (recomputing the angle from the scaled coordinates), and wrap
a negative `atan2` angle into `[0, 2π)` by adding `2π`. -/
def move (max_radius : ℝ) (p : Position) (move_distance walk_direction : ℝ) :
    Position :=
  let x := p.distance * Real.cos p.angle
  let y := p.distance * Real.sin p.angle
  let new_x := x + move_distance * Real.cos walk_direction
  let new_y := y + move_distance * Real.sin walk_direction
  let new_distance := Real.sqrt (new_x ^ 2 + new_y ^ 2)
  let result :=
    if max_radius < new_distance then
      let scale := max_radius / new_distance
      (atan2 (new_y * scale) (new_x * scale), max_radius)
    else
      (atan2 new_y new_x, new_distance)
  let final_angle := if result.1 < 0 then result.1 + 2 * π else result.1
  ⟨final_angle, result.2⟩

end

lemma atan2_bounds (y x : ℝ) : -π < atan2 y x ∧ atan2 y x ≤ π :=
  ⟨Complex.neg_pi_lt_arg _, Complex.arg_le_pi _⟩

lemma normalized_angle_fract (a : ℝ) :
    normalized_angle a = 2 * π * Int.fract (a / (2 * π)) := by
  have h2π : (2 : ℝ) * π ≠ 0 := by
    have := Real.pi_pos
    positivity
  unfold normalized_angle Int.fract
  field_simp

lemma normalized_angle_mem (a : ℝ) :
    0 ≤ normalized_angle a ∧ normalized_angle a < 2 * π := by
  have hπ := Real.pi_pos
  rw [normalized_angle_fract]
  constructor
  · exact mul_nonneg (by linarith) (Int.fract_nonneg _)
  · calc 2 * π * Int.fract (a / (2 * π)) < 2 * π * 1 := by
          exact mul_lt_mul_of_pos_left (Int.fract_lt_one _) (by linarith)
    _ = 2 * π := mul_one _

lemma normalized_angle_eq (a : ℝ) (k : ℤ)
    (h1 : 2 * π * k ≤ a) (h2 : a < 2 * π * (k + 1)) :
    normalized_angle a = a - 2 * π * k := by
  have hπ := Real.pi_pos
  have hfloor : ⌊a / (2 * π)⌋ = k := by
    rw [Int.floor_eq_iff]
    constructor
    · rw [le_div_iff₀ (by linarith : (0:ℝ) < 2 * π)]
      linarith
    · rw [div_lt_iff₀ (by linarith : (0:ℝ) < 2 * π)]
      linarith
  unfold normalized_angle
  rw [hfloor]

lemma get_quadrant_eq (a : ℝ) (k q : ℤ) (hq0 : 0 ≤ q) (hq4 : q < 4)
    (h1 : 2 * π * k + q * (π / 2) ≤ a)
    (h2 : a < 2 * π * k + (q + 1) * (π / 2)) :
    get_quadrant a = q := by
  have hπ := Real.pi_pos
  have hq0' : (0 : ℝ) ≤ (q : ℝ) := by exact_mod_cast hq0
  have hq4' : ((q : ℝ) + 1) ≤ 4 := by exact_mod_cast (by omega : q + 1 ≤ 4)
  have hqnn : 0 ≤ (q : ℝ) * (π / 2) := mul_nonneg hq0' (by linarith)
  have hqle : ((q : ℝ) + 1) * (π / 2) ≤ 2 * π := by nlinarith
  have hnorm : normalized_angle a = a - 2 * π * k := by
    refine normalized_angle_eq a k (by linarith) ?_
    linarith
  have hfloor : ⌊normalized_angle a / (π / 2)⌋ = q := by
    rw [hnorm, Int.floor_eq_iff]
    constructor
    · rw [le_div_iff₀ (by linarith : (0:ℝ) < π / 2)]
      linarith
    · rw [div_lt_iff₀ (by linarith : (0:ℝ) < π / 2)]
      linarith
  unfold get_quadrant
  rw [hfloor, Int.emod_eq_of_lt hq0 hq4]

/-- **C6.** `get_quadrant` reduces the angle modulo `2π` into `[0, 2π)`
and returns `floor(normalized / (π/2)) mod 4`, always in `{0,1,2,3}`;
angle `0` and any angle just below `π/2` give quadrant 0, angle `π/2`
gives quadrant 1, and an angle `3π/2 + ε` large enough to wrap past `2π`
gives quadrant 0 again. -/
theorem C6_get_quadrant :
    (∀ a : ℝ, 0 ≤ normalized_angle a ∧ normalized_angle a < 2 * π) ∧
    (∀ a : ℝ, 0 ≤ get_quadrant a ∧ get_quadrant a < 4) ∧
    get_quadrant 0 = 0 ∧
    (∀ δ : ℝ, 0 < δ → δ ≤ π / 2 → get_quadrant (π / 2 - δ) = 0) ∧
    get_quadrant (π / 2) = 1 ∧
    (∀ ε : ℝ, π / 2 ≤ ε → ε < π → get_quadrant (3 * π / 2 + ε) = 0) := by
  have hπ := Real.pi_pos
  refine ⟨normalized_angle_mem, ?_, ?_, ?_, ?_, ?_⟩
  · intro a
    exact ⟨Int.emod_nonneg _ (by norm_num), Int.emod_lt_of_pos _ (by norm_num)⟩
  · refine get_quadrant_eq 0 0 0 le_rfl (by norm_num) ?_ ?_ <;> push_cast <;> linarith
  · intro δ hδ1 hδ2
    refine get_quadrant_eq _ 0 0 le_rfl (by norm_num) ?_ ?_ <;> push_cast <;> linarith
  · refine get_quadrant_eq _ 0 1 (by norm_num) (by norm_num) ?_ ?_ <;> push_cast <;> linarith
  · intro ε hε1 hε2
    refine get_quadrant_eq _ 1 0 le_rfl (by norm_num) ?_ ?_ <;> push_cast <;> linarith

/-- Witness for C6: the wrapped angle `3π/2 + π/2 = 2π` lands in quadrant 0,
and the angle `π/2 - π/2 = 0` (just below `π/2` by `δ = π/2`) does too. -/
theorem C6_get_quadrant_witness :
    (π / 2 ≤ π / 2 ∧ π / 2 < π ∧ get_quadrant (3 * π / 2 + π / 2) = 0) ∧
    (0 < π / 2 ∧ get_quadrant (π / 2 - π / 2) = 0) :=
  ⟨⟨le_rfl, by linarith [Real.pi_pos],
      C6_get_quadrant.2.2.2.2.2 (π / 2) le_rfl (by linarith [Real.pi_pos])⟩,
   ⟨by linarith [Real.pi_pos],
      C6_get_quadrant.2.2.2.1 (π / 2) (by linarith [Real.pi_pos]) le_rfl⟩⟩

/-- **C10.** `move` re-establishes the position invariant from any prior
position: the new distance lies in `[0, max_radius]` (a position walked
past the boundary is scaled back onto it) and the stored angle lies in
`[0, 2π)`. -/
theorem C10_move_invariant (max_radius : ℝ) (p : Position) (md wd : ℝ)
    (hr : 0 ≤ max_radius) :
    0 ≤ (move max_radius p md wd).distance ∧
    (move max_radius p md wd).distance ≤ max_radius ∧
    0 ≤ (move max_radius p md wd).angle ∧
    (move max_radius p md wd).angle < 2 * π := by
  have hπ := Real.pi_pos
  unfold move
  dsimp only
  set nx := p.distance * Real.cos p.angle + md * Real.cos wd with hnx
  set ny := p.distance * Real.sin p.angle + md * Real.sin wd with hny
  set nd := Real.sqrt (nx ^ 2 + ny ^ 2) with hnd
  by_cases hc : max_radius < nd
  · rw [if_pos hc]
    have hb := atan2_bounds (ny * (max_radius / nd)) (nx * (max_radius / nd))
    refine ⟨hr, le_refl _, ?_, ?_⟩
    · dsimp only
      split_ifs with hneg
      · linarith [hb.1]
      · linarith [not_lt.mp hneg]
    · dsimp only
      split_ifs with hneg
      · linarith
      · linarith [hb.2]
  · rw [if_neg hc]
    have hb := atan2_bounds ny nx
    refine ⟨Real.sqrt_nonneg _, not_lt.mp hc, ?_, ?_⟩
    · dsimp only
      split_ifs with hneg
      · linarith [hb.1]
      · linarith [not_lt.mp hneg]
    · dsimp only
      split_ifs with hneg
      · linarith
      · linarith [hb.2]

/-- Witness for C10: moving from the origin by distance 0 stays within a
unit radius with a normalized angle. -/
theorem C10_move_invariant_witness :
    (0 : ℝ) ≤ 1 ∧
    (0 ≤ (move 1 ⟨0, 0⟩ 0 0).distance ∧
      (move 1 ⟨0, 0⟩ 0 0).distance ≤ 1 ∧
      0 ≤ (move 1 ⟨0, 0⟩ 0 0).angle ∧
      (move 1 ⟨0, 0⟩ 0 0).angle < 2 * π) :=
  ⟨by norm_num, C10_move_invariant 1 ⟨0, 0⟩ 0 0 (by norm_num)⟩

end RoosterSim
